import Mathlib

/-!
Verification of the instruction-set simulator in `src/Simulator.py`.

The Python program stores every register, memory word and instruction as a
string of `'0'`/`'1'` characters.  We embed such strings as `List Char`, pure
functions as Lean functions, Python exceptions (`ValueError` from the length
check and from `int(_, 2)` on unparseable text) as `Option`, and the mutable
global register/memory state as an explicit `SimState` record threaded through
`ExecuteInstruction`.  Python's arbitrary-precision `int` is embedded as `Int`;
Python `//` is `Int.fdiv`, Python `%` (with a positive divisor) is `Int.emod`,
and the two masking uses of `&` are embedded as the corresponding remainder
operations (`n & ((1 << bits) - 1)` is `n % 2^bits`, `x & ~1` is `x - x % 2`,
`x & 0x1F` is `x % 32`); the lemmas `land_neg_two` and `land_thirty_one`
below prove these equal Mathlib's two's-complement bitwise `Int.land`, which
is exactly Python's `&` on `int`.
-/

set_option maxRecDepth 4000

/-- Most-significant-bit-first rendering of the low `bits` bits of `n`;
this is `f"{n:0{bits}b}"` for the masked (hence in-range) values the
program formats. -/
def natToBinChars : Nat → Nat → List Char
  | 0, _ => []
  | b + 1, n => (if n.testBit b then '1' else '0') :: natToBinChars b n

/-- One base-2 digit, as accepted by Python `int(_, 2)`. -/
def parseBinChar (c : Char) : Option Nat :=
  if c = '0' then some 0 else if c = '1' then some 1 else none

/-- Accumulator worker for `parseBin`. -/
def parseBinAux : Nat → List Char → Option Nat
  | acc, [] => some acc
  | acc, c :: cs =>
    match parseBinChar c with
    | some d => parseBinAux (2 * acc + d) cs
    | none => none

/-- Python `int(s, 2)` restricted to the plain-digit fragment of its numeral
grammar: succeeds exactly on nonempty strings of `'0'`/`'1'` characters,
where it agrees with CPython bit for bit.  CPython's full grammar also
accepts a `0b`/`0B` prefix, single interspersed underscores, a leading sign
and surrounding whitespace; none of those occur in the simulator's own data
(registers, memory and encoder output are always plain binary digits), and
every theorem below that relies on a parse either confines the parsed field
to plain binary characters, where model and CPython agree, or (for the C7
failure conjunct) uses the digit `'2'`, which no part of CPython's base-2
numeral syntax accepts, so the parse fails in both.  Failure (`none`) models
the `ValueError` the source lets escape. -/
def parseBin (s : List Char) : Option Nat :=
  match s with
  | [] => none
  | _ => parseBinAux 0 s

/-- `ConvertToBinary` from `src/Simulator.py`: mask `n` to `bits` bits
(`n & ((1 << bits) - 1)`, i.e. `n mod 2^bits`) and format as a `bits`-length
binary string.  The `flag` branch adds `(1 << bits)` to a negative `n` first,
exactly as the source does. -/
def ConvertToBinary (n : Int) (bits : Nat) (flag : Bool) : List Char :=
  natToBinChars bits
    (((if flag ∧ n < 0 then 2 ^ bits + n else n).emod (2 ^ bits)).toNat)

/-- `BinaryToDecimal` from `src/Simulator.py`: two's-complement read of a
binary string of its own length (`int(bstr, 2)`, minus `2^len` when the
leading character is not `'0'`).  `none` models the `IndexError` on an empty
string and the `ValueError` from `int(_, 2)`; as with `parseBin`, the parse
is modelled on the plain-digit fragment of Python's numeral grammar, which
is the only fragment the simulator's own data ever exercises. -/
def BinaryToDecimal (bstr : List Char) : Option Int :=
  match bstr with
  | [] => none
  | c :: _ =>
    if c = '0' then (parseBin bstr).map (fun n => (Int.ofNat n))
    else (parseBin bstr).map (fun n => (Int.ofNat n) - 2 ^ bstr.length)

/-- Python string slice `s[a:b]` for the in-range indices the decoder uses. -/
def strSlice (l : List Char) (a b : Nat) : List Char :=
  (l.drop a).take (b - a)

/-- The `RType` opcode list membership test. -/
def RTypeHas (Opcode : List Char) : Prop :=
  Opcode = ("0110011").toList

instance (Opcode : List Char) : Decidable (RTypeHas Opcode) := by
  unfold RTypeHas; infer_instance

/-- The `IType` opcode dictionary. -/
def ITypeGet (Opcode : List Char) : Option String :=
  if Opcode = ("0000011").toList then some ("lw")
  else if Opcode = ("0010011").toList then some ("addi")
  else if Opcode = ("1100111").toList then some ("jalr")
  else none

/-- The `SType` opcode dictionary. -/
def STypeGet (Opcode : List Char) : Option String :=
  if Opcode = ("0100011").toList then some ("sw") else none

/-- The `BType` opcode list membership test. -/
def BTypeHas (Opcode : List Char) : Prop :=
  Opcode = ("1100011").toList

instance (Opcode : List Char) : Decidable (BTypeHas Opcode) := by
  unfold BTypeHas; infer_instance

/-- The `JType` opcode dictionary. -/
def JTypeGet (Opcode : List Char) : Option String :=
  if Opcode = ("1101111").toList then some ("jal") else none

/-- The `BTypeFunct3` dictionary, accessed with `.get(funct3, None)`. -/
def BTypeFunct3Get (funct3 : List Char) : Option String :=
  if funct3 = ("000").toList then some ("beq")
  else if funct3 = ("001").toList then some ("bne")
  else none

/-- The halt sentinel `HaltInst` from `src/Simulator.py`. -/
def HaltInst : List Char :=
  ("00000000000000000000000001100011").toList

/-- `MemStart = 0x00010000`. -/
def MemStart : Int := 0x00010000

/-- `MemSize = 32` data-memory words. -/
def MemSize : Nat := 32

/-- `CheckType` from `src/Simulator.py`. -/
def CheckType (Opcode : List Char) : String :=
  if RTypeHas Opcode then ("R")
  else if (ITypeGet Opcode).isSome then ("I")
  else if (STypeGet Opcode).isSome then ("S")
  else if BTypeHas Opcode then ("B")
  else if (JTypeGet Opcode).isSome then ("J")
  else ("invalid")

/-- The simulator's mutable global state: the register file `r`
(entries `x0` … `x31`, in index order) and the data `Memory`
(`MemSize` words). -/
structure SimState where
  r : List (List Char)
  Memory : List (List Char)
deriving DecidableEq, Repr

/-- `ResetSimulator` from `src/Simulator.py`: 32 zero registers with
`x2 = f"{380:032b}"`, and `MemSize` zero memory words. -/
def ResetSimulator : SimState :=
  { r := (List.replicate 32 (List.replicate 32 '0')).set 2 (natToBinChars 32 380),
    Memory := List.replicate MemSize (List.replicate 32 '0') }

/-! ### Basic codec lemmas -/

theorem natToBinChars_length (b n : Nat) : (natToBinChars b n).length = b := by
  induction b generalizing n with
  | zero => rfl
  | succ b ih => simp [natToBinChars, ih]

theorem natToBinChars_mem (b n : Nat) :
    ∀ c ∈ natToBinChars b n, c = '0' ∨ c = '1' := by
  induction b generalizing n with
  | zero => simp [natToBinChars]
  | succ b ih =>
    intro c hc
    simp only [natToBinChars, List.mem_cons] at hc
    rcases hc with h | h
    · split at h <;> simp [h]
    · exact ih n c h

theorem natToBinChars_ne_nil (b n : Nat) (hb : 0 < b) :
    natToBinChars b n ≠ [] := by
  intro h
  have := natToBinChars_length b n
  rw [h] at this
  simp at this
  omega

theorem parseBinAux_natToBinChars (b : Nat) :
    ∀ (n acc : Nat), parseBinAux acc (natToBinChars b n)
      = some (acc * 2 ^ b + n % 2 ^ b) := by
  induction b with
  | zero => intro n acc; simp [natToBinChars, parseBinAux, Nat.mod_one]
  | succ b ih =>
    intro n acc
    have hbit : n.testBit b = decide (n / 2 ^ b % 2 = 1) :=
      Nat.testBit_to_div_mod ..
    have hmod : n % 2 ^ (b + 1) = n % 2 ^ b + 2 ^ b * (n / 2 ^ b % 2) := by
      calc n % 2 ^ (b + 1) = n % (2 ^ b * 2) := by ring_nf
        _ = n % 2 ^ b + 2 ^ b * (n / 2 ^ b % 2) := Nat.mod_mul ..
    simp only [natToBinChars]
    split
    · rename_i ht
      rw [ht] at hbit
      have h1 : n / 2 ^ b % 2 = 1 := by
        by_contra hcon
        simp [hcon] at hbit
      have hstep : parseBinAux acc ('1' :: natToBinChars b n)
          = parseBinAux (2 * acc + 1) (natToBinChars b n) := by
        simp [parseBinAux, parseBinChar]
      rw [hstep, ih]
      congr 1
      rw [hmod, h1]
      ring
    · rename_i ht
      rw [Bool.not_eq_true] at ht
      rw [ht] at hbit
      have h0 : n / 2 ^ b % 2 = 0 := by
        by_cases hcon : n / 2 ^ b % 2 = 1
        · simp [hcon] at hbit
        · omega
      have hstep : parseBinAux acc ('0' :: natToBinChars b n)
          = parseBinAux (2 * acc) (natToBinChars b n) := by
        simp [parseBinAux, parseBinChar]
      rw [hstep, ih]
      congr 1
      rw [hmod, h0]
      ring

theorem parseBin_natToBinChars (b n : Nat) (hb : 0 < b) (hn : n < 2 ^ b) :
    parseBin (natToBinChars b n) = some n := by
  have hne := natToBinChars_ne_nil b n hb
  unfold parseBin
  split
  · exact absurd (by assumption) hne
  · rw [parseBinAux_natToBinChars]
    simp [Nat.mod_eq_of_lt hn]

theorem parseBinChar_le_one (c : Char) (d : Nat) (h : parseBinChar c = some d) :
    d ≤ 1 := by
  unfold parseBinChar at h
  split at h
  · simp at h; omega
  · split at h
    · simp at h; omega
    · exact absurd h (by simp)

theorem parseBinAux_lt (l : List Char) :
    ∀ (acc m : Nat), parseBinAux acc l = some m → m < (acc + 1) * 2 ^ l.length := by
  induction l with
  | nil =>
    intro acc m h
    simp only [parseBinAux, Option.some.injEq] at h
    simp only [List.length_nil, pow_zero, mul_one]
    omega
  | cons c cs ih =>
    intro acc m h
    simp only [parseBinAux] at h
    split at h
    · rename_i d hd
      have hd1 := parseBinChar_le_one c d hd
      have := ih (2 * acc + d) m h
      have h2 : (2 * acc + d + 1) * 2 ^ cs.length ≤ (acc + 1) * 2 ^ (c :: cs).length := by
        simp only [List.length_cons, pow_succ]
        nlinarith [Nat.pos_pow_of_pos cs.length (show 0 < 2 by norm_num)]
      omega
    · exact absurd h (by simp)

theorem parseBin_lt (l : List Char) (m : Nat) (h : parseBin l = some m) :
    m < 2 ^ l.length := by
  unfold parseBin at h
  split at h
  · exact absurd h (by simp)
  · have := parseBinAux_lt l 0 m h
    simpa using this

theorem parseBinAux_some_of_bin (l : List Char)
    (hbin : ∀ c ∈ l, c = '0' ∨ c = '1') :
    ∀ acc, ∃ m, parseBinAux acc l = some m := by
  induction l with
  | nil => intro acc; exact ⟨acc, rfl⟩
  | cons c cs ih =>
    intro acc
    have hc : c = '0' ∨ c = '1' := hbin c (by simp)
    have hcs : ∀ c ∈ cs, c = '0' ∨ c = '1' := fun x hx => hbin x (by simp [hx])
    rcases hc with h | h <;>
      · subst h
        simp only [parseBinAux, parseBinChar]
        norm_num
        exact ih hcs _

theorem parseBin_some_of_bin (l : List Char) (hne : l ≠ [])
    (hbin : ∀ c ∈ l, c = '0' ∨ c = '1') :
    ∃ m, parseBin l = some m := by
  unfold parseBin
  split
  · exact absurd rfl hne
  · exact parseBinAux_some_of_bin l hbin 0

theorem BinaryToDecimal_some_of_bin (l : List Char) (hne : l ≠ [])
    (hbin : ∀ c ∈ l, c = '0' ∨ c = '1') :
    ∃ z, BinaryToDecimal l = some z := by
  obtain ⟨m, hm⟩ := parseBin_some_of_bin l hne hbin
  match l, hne with
  | c :: cs, _ =>
    simp only [BinaryToDecimal]
    by_cases hc : c = '0'
    · rw [if_pos hc, hm]; exact ⟨m, rfl⟩
    · rw [if_neg hc, hm]; exact ⟨_, rfl⟩

theorem parseBinAux_snoc (l : List Char) :
    ∀ (acc : Nat) (c : Char), parseBinAux acc (l ++ [c])
      = (parseBinAux acc l).bind fun m =>
          (parseBinChar c).map fun d => 2 * m + d := by
  induction l with
  | nil =>
    intro acc c
    simp only [List.nil_append, parseBinAux]
    cases h : parseBinChar c <;> simp [h, parseBinAux]
  | cons a asr ih =>
    intro acc c
    simp only [List.cons_append, parseBinAux]
    cases h : parseBinChar a
    · simp
    · simp only []
      exact ih _ c

/-- A binary string with an appended `'0'` (as built for branch and jump
immediates) always reads back as an even value. -/
theorem BinaryToDecimal_snoc_zero_even (l : List Char) (v : Int)
    (h : BinaryToDecimal (l ++ ['0']) = some v) : v % 2 = 0 := by
  match l with
  | [] =>
    have hval : BinaryToDecimal ([] ++ ['0']) = some 0 := by decide
    rw [hval] at h
    simp only [Option.some.injEq] at h
    omega
  | c :: cs =>
    have hcons : (c :: cs) ++ ['0'] = c :: (cs ++ ['0']) := rfl
    rw [hcons] at h
    cases hx : parseBinAux 0 (c :: cs) with
    | none =>
      have h1 : parseBin (c :: (cs ++ ['0'])) = none := by
        have h2 : parseBin (c :: (cs ++ ['0']))
            = parseBinAux 0 ((c :: cs) ++ ['0']) := rfl
        rw [h2, parseBinAux_snoc, hx]
        rfl
      simp only [BinaryToDecimal] at h
      split at h <;> rw [h1] at h <;> exact absurd h (by simp)
    | some m =>
      have h1 : parseBin (c :: (cs ++ ['0'])) = some (2 * m) := by
        have h2 : parseBin (c :: (cs ++ ['0']))
            = parseBinAux 0 ((c :: cs) ++ ['0']) := rfl
        rw [h2, parseBinAux_snoc, hx]
        simp [parseBinChar]
      have hpow : ((2 : Int) ^ (c :: (cs ++ ['0'])).length)
          = 2 * 2 ^ (cs.length + 1) := by
        have hl : (c :: (cs ++ ['0'])).length = cs.length + 2 := by simp
        rw [hl, pow_succ]
        ring
      simp only [BinaryToDecimal] at h
      split at h
      · rw [h1] at h
        simp only [Option.map_some', Option.some.injEq] at h
        rw [Int.ofNat_eq_natCast] at h
        omega
      · rw [h1] at h
        simp only [Option.map_some', Option.some.injEq] at h
        rw [Int.ofNat_eq_natCast, hpow] at h
        omega

theorem ConvertToBinary_length (n : Int) (bits : Nat) (flag : Bool) :
    (ConvertToBinary n bits flag).length = bits := by
  unfold ConvertToBinary
  exact natToBinChars_length ..

theorem ConvertToBinary_mem (n : Int) (bits : Nat) (flag : Bool) :
    ∀ c ∈ ConvertToBinary n bits flag, c = '0' ∨ c = '1' := by
  unfold ConvertToBinary
  intro c hc
  exact natToBinChars_mem _ _ c hc

/-- C1.  For every signed 32-bit integer `v` in `[-2^31, 2^31 - 1]`,
`BinaryToDecimal (ConvertToBinary v 32) = v`: the binary encoder and the
signed decoder are mutual inverses on every value that fits the width. -/
theorem C1_convert_roundtrip (v : Int)
    (hlo : -(2 ^ 31) ≤ v) (hhi : v ≤ 2 ^ 31 - 1) :
    BinaryToDecimal (ConvertToBinary v 32 false) = some v := by
  have e31 : (2 : Int) ^ 31 = 2147483648 := by norm_num
  have e32 : (2 : Int) ^ 32 = 4294967296 := by norm_num
  have hcv : ConvertToBinary v 32 false
      = natToBinChars 32 ((v.emod (2 ^ 32)).toNat) := by
    unfold ConvertToBinary
    norm_num
  set M : Nat := (v.emod (2 ^ 32)).toNat with hMdef
  have hMv : (M : Int) = v % 2 ^ 32 := by
    rw [hMdef]
    exact Int.toNat_of_nonneg (Int.emod_nonneg v (by positivity))
  have hsplit : (32 : Nat) = 31 + 1 := rfl
  rcases le_or_lt 0 v with hv | hv
  · -- nonnegative values keep a zero sign bit
    have hmodv : v % 2 ^ 32 = v := Int.emod_eq_of_lt hv (by omega)
    have hMeq : (M : Int) = v := by rw [hMv, hmodv]
    have hMlt : M < 2 ^ 31 := by
      have h31 : ((2 : Int) ^ 31) = ((2 ^ 31 : Nat) : Int) := by norm_num
      omega
    have hbit : M.testBit 31 = false := Nat.testBit_lt_two_pow hMlt
    have hhead : natToBinChars 32 M = '0' :: natToBinChars 31 M := by
      rw [hsplit]
      simp [natToBinChars, hbit]
    have hparse : parseBin (natToBinChars 32 M) = some M := by
      apply parseBin_natToBinChars 32 M (by norm_num)
      have : (2 : Nat) ^ 31 < 2 ^ 32 := by norm_num
      omega
    rw [hcv, hhead]
    simp only [BinaryToDecimal, if_pos rfl]
    rw [← hhead, hparse]
    simp only [Option.map_some', Option.some.injEq]
    rw [Int.ofNat_eq_natCast, hMeq]
    simp
  · -- negative values wrap to the upper half, so the sign bit is one
    have hmodv : v % 2 ^ 32 = v + 2 ^ 32 := by
      have h1 : 0 ≤ v + 2 ^ 32 := by omega
      have h2 : v + 2 ^ 32 < 2 ^ 32 := by omega
      have h3 : (v + 2 ^ 32) % 2 ^ 32 = v % 2 ^ 32 := by
        rw [e32]
        omega
      rw [← h3]
      exact Int.emod_eq_of_lt h1 h2
    have hMeq : (M : Int) = v + 2 ^ 32 := by rw [hMv, hmodv]
    have hn31 : ((2 ^ 31 : Nat) : Int) = 2 ^ 31 := by norm_num
    have hn32 : ((2 ^ 32 : Nat) : Int) = 2 ^ 32 := by norm_num
    have hMlo : 2 ^ 31 ≤ M := by omega
    have hMhi : M < 2 ^ 32 := by omega
    have hdiv : M / 2 ^ 31 = 1 := by
      apply Nat.div_eq_of_lt_le
      · omega
      · have : (1 + 1) * 2 ^ 31 = 2 ^ 32 := by norm_num
        omega
    have hbit : M.testBit 31 = true := by
      rw [Nat.testBit_to_div_mod, hdiv]
      norm_num
    have hhead : natToBinChars 32 M = '1' :: natToBinChars 31 M := by
      rw [hsplit]
      simp [natToBinChars, hbit]
    have hparse : parseBin (natToBinChars 32 M) = some M := by
      exact parseBin_natToBinChars 32 M (by norm_num) hMhi
    rw [hcv, hhead]
    simp only [BinaryToDecimal, if_neg (by decide : ¬ ('1' : Char) = '0')]
    rw [← hhead, hparse]
    simp only [Option.map_some', Option.some.injEq]
    rw [natToBinChars_length, Int.ofNat_eq_natCast, hMeq]
    ring

/-- Witness for C1 at the concrete value `-123`. -/
theorem C1_convert_roundtrip_witness :
    BinaryToDecimal (ConvertToBinary (-123) 32 false) = some (-123) :=
  C1_convert_roundtrip (-123) (by norm_num) (by norm_num)

/-! ### Bitwise-AND bridge lemmas

The executable embedding writes Python's two masking uses of `&` as remainder
operations; these lemmas prove the remainder forms equal Mathlib's
two's-complement `Int.land`, which is Python's `&` on `int`. -/

theorem nat_testBit_double_zero (q : Nat) : (2 * q).testBit 0 = false := by
  rw [Nat.testBit_zero]
  simp [Nat.mul_mod_right]

theorem nat_testBit_double_succ (q i : Nat) :
    (2 * q).testBit (i + 1) = q.testBit i := by
  rw [Nat.testBit_succ]
  congr 1
  omega

theorem nat_testBit_double_add_one_zero (q : Nat) :
    (2 * q + 1).testBit 0 = true := by
  rw [Nat.testBit_zero]
  simp [Nat.mul_add_mod]

theorem nat_testBit_double_add_one_succ (q i : Nat) :
    (2 * q + 1).testBit (i + 1) = q.testBit i := by
  rw [Nat.testBit_succ]
  congr 1
  omega

theorem nat_testBit_one_succ (i : Nat) : (1 : Nat).testBit (i + 1) = false := by
  apply Nat.testBit_lt_two_pow
  have : (2 : Nat) ^ 1 ≤ 2 ^ (i + 1) := Nat.pow_le_pow_right (by norm_num) (by omega)
  omega

theorem nat_ldiff_one (m : Nat) : Nat.ldiff m 1 = m - m % 2 := by
  have h2 : m - m % 2 = 2 * (m / 2) := by omega
  rw [h2]
  apply Nat.eq_of_testBit_eq
  intro i
  cases i with
  | zero =>
    rw [Nat.testBit_ldiff, nat_testBit_double_zero]
    simp
  | succ i =>
    rw [Nat.testBit_ldiff, nat_testBit_double_succ, nat_testBit_one_succ,
      Nat.testBit_succ]
    simp

theorem nat_lor_one (m : Nat) : m ||| 1 = m + 1 - m % 2 := by
  rcases Nat.even_or_odd m with he | ho
  · obtain ⟨q, hq⟩ := he
    have hm : m = 2 * q := by omega
    subst hm
    have hr : 2 * q + 1 - 2 * q % 2 = 2 * q + 1 := by omega
    rw [hr]
    apply Nat.eq_of_testBit_eq
    intro i
    cases i with
    | zero =>
      rw [Nat.testBit_lor, nat_testBit_double_zero, nat_testBit_double_add_one_zero]
      simp
    | succ i =>
      rw [Nat.testBit_lor, nat_testBit_double_succ, nat_testBit_double_add_one_succ,
        nat_testBit_one_succ]
      simp
  · obtain ⟨q, hq⟩ := ho
    subst hq
    have hr : 2 * q + 1 + 1 - (2 * q + 1) % 2 = 2 * q + 1 := by omega
    rw [hr]
    apply Nat.eq_of_testBit_eq
    intro i
    cases i with
    | zero =>
      rw [Nat.testBit_lor, nat_testBit_double_add_one_zero]
      simp
    | succ i =>
      rw [Nat.testBit_lor, nat_testBit_double_add_one_succ, nat_testBit_one_succ]
      simp

theorem nat_land_thirty_one (m : Nat) : m &&& 31 = m % 32 := by
  have h31 : (31 : Nat) = 2 ^ 5 - 1 := by norm_num
  have h32 : (32 : Nat) = 2 ^ 5 := by norm_num
  rw [h31, h32]
  apply Nat.eq_of_testBit_eq
  intro i
  rw [Nat.testBit_land, Nat.testBit_two_pow_sub_one, Nat.testBit_mod_two_pow]
  exact Bool.and_comm ..

theorem nat_ldiff_thirty_one (m : Nat) : Nat.ldiff 31 m = 31 - m % 32 := by
  have hball : ∀ r < 32, 31 - r = 31 ^^^ r := by decide
  have hrlt : m % 32 < 32 := Nat.mod_lt m (by norm_num)
  rw [hball (m % 32) hrlt]
  have h31 : (31 : Nat) = 2 ^ 5 - 1 := by norm_num
  have h32 : (32 : Nat) = 2 ^ 5 := by norm_num
  rw [h31, h32]
  apply Nat.eq_of_testBit_eq
  intro i
  rw [Nat.testBit_ldiff, Nat.testBit_xor, Nat.testBit_two_pow_sub_one,
    Nat.testBit_mod_two_pow]
  by_cases hi : i < 5
  · simp [hi]
  · simp [hi]

/-- Python `x & ~1` (clear the low bit) equals `x - x % 2`. -/
theorem land_neg_two (x : Int) : Int.land x (-2) = x - x % 2 := by
  cases x with
  | ofNat m =>
    have h1 : Int.land (Int.ofNat m) (-2) = Int.ofNat (Nat.ldiff m 1) := rfl
    rw [h1, nat_ldiff_one]
    simp only [Int.ofNat_eq_natCast]
    omega
  | negSucc m =>
    have h1 : Int.land (Int.negSucc m) (-2) = Int.negSucc (m ||| 1) := rfl
    rw [h1, nat_lor_one]
    rw [Int.negSucc_eq, Int.negSucc_eq]
    omega

/-- Python `x & 0x1F` (mask to 5 bits) equals `x % 32`. -/
theorem land_thirty_one (x : Int) : Int.land x 31 = x % 32 := by
  cases x with
  | ofNat m =>
    have h1 : Int.land (Int.ofNat m) 31 = Int.ofNat (m &&& 31) := rfl
    rw [h1, nat_land_thirty_one]
    simp only [Int.ofNat_eq_natCast]
    omega
  | negSucc m =>
    have h1 : Int.land (Int.negSucc m) 31 = Int.ofNat (Nat.ldiff 31 m) := rfl
    rw [h1, nat_ldiff_thirty_one]
    simp only [Int.ofNat_eq_natCast, Int.negSucc_eq]
    omega

/-! ### The execution engine -/

/-- `ExecuteInstruction` from `src/Simulator.py`, with the mutable globals
`r`/`Memory` made an explicit state.  Returns `some (halt, newPC, newState)`;
`none` models the `ValueError` raised for a word that is not 32 characters
long, and the `ValueError` from `int(_, 2)` on a field that is not a
base-2 numeral.  Fields are sliced exactly as in the source; `//` is floor
division (`Int.fdiv`), `x & ~1` is written `x - x % 2` and
`rs2Val & 0x1F` is written `rs2Val % 32` (see `land_neg_two` and
`land_thirty_one`). -/
def ExecuteInstruction (BinaryInst : List Char) (PC : Int) (s : SimState) :
    Option (Bool × Int × SimState) :=
  if BinaryInst.length ≠ 32 then none
  else if BinaryInst = HaltInst then some (true, PC, s)
  else
    (parseBin (strSlice BinaryInst 20 25)).bind fun rd =>
    (parseBin (strSlice BinaryInst 12 17)).bind fun rs1 =>
    (parseBin (strSlice BinaryInst 7 12)).bind fun rs2 =>
    if CheckType (strSlice BinaryInst 25 32) = "R" then
      (BinaryToDecimal (s.r.getD rs1 [])).bind fun rs1Val =>
      (BinaryToDecimal (s.r.getD rs2 [])).bind fun rs2Val =>
      some (false, PC + 4,
        { s with r := s.r.set rd (ConvertToBinary
            (if strSlice BinaryInst 17 20 = ("000").toList then
              (if strSlice BinaryInst 0 7 = ("0000000").toList
               then rs1Val + rs2Val else rs1Val - rs2Val)
             else if strSlice BinaryInst 17 20 = ("010").toList then
              (if rs1Val < rs2Val then 1 else 0)
             else if strSlice BinaryInst 17 20 = ("101").toList then
              Int.fdiv rs1Val (2 ^ (rs2Val % 32).toNat)
             else if strSlice BinaryInst 17 20 = ("111").toList then
              Int.land rs1Val rs2Val
             else if strSlice BinaryInst 17 20 = ("110").toList then
              Int.lor rs1Val rs2Val
             else 0) 32 false) })
    else if CheckType (strSlice BinaryInst 25 32) = "I" then
      (BinaryToDecimal (strSlice BinaryInst 0 12)).bind fun immVal =>
      (BinaryToDecimal (s.r.getD rs1 [])).bind fun rs1Val =>
      (ITypeGet (strSlice BinaryInst 25 32)).bind fun o =>
      if o = "addi" then
        some (false, PC + 4,
          { s with r := s.r.set rd (ConvertToBinary (rs1Val + immVal) 32 false) })
      else if o = "jalr" then
        some (false, (rs1Val + immVal) - (rs1Val + immVal) % 2,
          if rd ≠ 0 then
            { s with r := s.r.set rd (ConvertToBinary (PC + 4) 32 false) }
          else s)
      else if o = "lw" then
        some (false, PC + 4,
          { s with r := s.r.set rd (if 0 ≤ Int.fdiv (rs1Val + immVal - MemStart) 4 ∧
                    Int.fdiv (rs1Val + immVal - MemStart) 4 < (MemSize : Int) ∧
                    (rs1Val + immVal) % 4 = 0 then
                  s.Memory.getD (Int.fdiv (rs1Val + immVal - MemStart) 4).toNat []
                 else List.replicate 32 '0') })
      else some (false, PC, s)
    else if CheckType (strSlice BinaryInst 25 32) = "S" then
      (BinaryToDecimal (strSlice BinaryInst 0 7 ++ strSlice BinaryInst 20 25)).bind
        fun immVal =>
      (BinaryToDecimal (s.r.getD rs1 [])).bind fun rs1Val =>
      (BinaryToDecimal (s.r.getD rs2 [])).bind fun rs2Val =>
      (STypeGet (strSlice BinaryInst 25 32)).bind fun o =>
      some (false, PC + 4,
        if o = "sw" then
          (if 0 ≤ Int.fdiv (rs1Val + immVal - MemStart) 4 ∧
              Int.fdiv (rs1Val + immVal - MemStart) 4 < (MemSize : Int) ∧
              (rs1Val + immVal) % 4 = 0 then
            { s with Memory := s.Memory.set (Int.fdiv (rs1Val + immVal - MemStart) 4).toNat (s.r.getD rs2 []) }
           else s)
        else s)
    else if CheckType (strSlice BinaryInst 25 32) = "B" then
      (BinaryToDecimal (strSlice BinaryInst 0 1 ++ strSlice BinaryInst 24 25 ++
          strSlice BinaryInst 1 7 ++ strSlice BinaryInst 20 24 ++ ['0'])).bind
        fun immVal =>
      (BinaryToDecimal (s.r.getD rs1 [])).bind fun rs1Val =>
      (BinaryToDecimal (s.r.getD rs2 [])).bind fun rs2Val =>
      if BTypeFunct3Get (strSlice BinaryInst 17 20) = some ("beq") ∧ rs1Val = rs2Val then
        some (false, PC + immVal, s)
      else if BTypeFunct3Get (strSlice BinaryInst 17 20) = some ("bne") ∧ rs1Val ≠ rs2Val then
        some (false, PC + immVal, s)
      else
        some (false, PC + 4, s)
    else if CheckType (strSlice BinaryInst 25 32) = "J" then
      (BinaryToDecimal (strSlice BinaryInst 0 1 ++ strSlice BinaryInst 12 20 ++
          strSlice BinaryInst 11 12 ++ strSlice BinaryInst 1 11 ++ ['0'])).bind
        fun immVal =>
      some (false, PC + immVal,
        if rd ≠ 0 then
          { s with r := s.r.set rd (ConvertToBinary (PC + 4) 32 false) }
        else s)
    else
      some (false, PC + 4, s)

/-- `GetRegisterDump` from `src/Simulator.py`: the trace line rendered for one
executed step. -/
def GetRegisterDump (PC : Int) (s : SimState) : List Char :=
  (List.range 32).foldl
    (fun Dump i => Dump ++ (' ' :: '0' :: 'b' :: s.r.getD i []))
    ('0' :: 'b' :: ConvertToBinary PC 32 false)

/-- The while-loop of `AutomatedTesting` in `src/Simulator.py`, with explicit
fuel (the source loop has no step bound; every claim below supplies enough
fuel for its run).  Each executed step appends one trace record: the
post-step program counter and state that `GetRegisterDump` renders.
`none` propagates an `ExecuteInstruction` failure or exhausted fuel. -/
def RunLoop : Nat → List (List Char) → Int → SimState →
    Option (List (Int × SimState))
  | 0, _, _, _ => none
  | fuel + 1, Instructions, PC, s =>
    if 0 ≤ Int.fdiv PC 4 ∧ Int.fdiv PC 4 < (Instructions.length : Int) then
      match ExecuteInstruction (Instructions.getD (Int.fdiv PC 4).toNat []) PC s with
      | none => none
      | some (Halt, PCn, sn) =>
        if Halt then some [(PCn, sn)]
        else
          match RunLoop fuel Instructions PCn sn with
          | none => none
          | some rest => some ((PCn, sn) :: rest)
    else some []

/-! ### Well-formedness of words and states -/

/-- A well-formed word: exactly 32 characters, each `'0'` or `'1'`. -/
def WFWord (w : List Char) : Prop :=
  w.length = 32 ∧ ∀ c ∈ w, c = '0' ∨ c = '1'

instance (w : List Char) : Decidable (WFWord w) := by
  unfold WFWord; infer_instance

/-- A well-formed state: 32 registers and `MemSize` memory words, all
well-formed. -/
def WFState (s : SimState) : Prop :=
  s.r.length = 32 ∧ s.Memory.length = MemSize ∧
    (∀ w ∈ s.r, WFWord w) ∧ (∀ w ∈ s.Memory, WFWord w)

instance (s : SimState) : Decidable (WFState s) := by
  unfold WFState; infer_instance

theorem WFWord_ConvertToBinary (n : Int) (flag : Bool) :
    WFWord (ConvertToBinary n 32 flag) :=
  ⟨ConvertToBinary_length n 32 flag, fun c hc => ConvertToBinary_mem n 32 flag c hc⟩

theorem WFWord_zeros : WFWord (List.replicate 32 '0') := by decide

theorem strSlice_length (l : List Char) (a b : Nat) (hb : b ≤ l.length)
    (hab : a ≤ b) : (strSlice l a b).length = b - a := by
  unfold strSlice
  rw [List.length_take, List.length_drop]
  omega

theorem strSlice_mem (l : List Char) (a b : Nat) :
    ∀ c ∈ strSlice l a b, c ∈ l := by
  intro c hc
  unfold strSlice at hc
  exact List.mem_of_mem_drop (List.mem_of_mem_take hc)

theorem getD_mem_of_lt (l : List (List Char)) (n : Nat) (d : List Char)
    (h : n < l.length) : l.getD n d ∈ l := by
  induction l generalizing n with
  | nil => simp at h
  | cons a t ih =>
    cases n with
    | zero => simp [List.getD]
    | succ n =>
      rw [List.getD_cons_succ]
      exact List.mem_cons_of_mem _ (ih n (by simpa using h))

/-- A field of five binary characters parses to a register index below 32. -/
theorem parseBin_field_lt_32 (l : List Char) (m : Nat) (h5 : l.length = 5)
    (h : parseBin l = some m) : m < 32 := by
  have := parseBin_lt l m h
  rw [h5] at this
  norm_num at this
  exact this

/-! ### Concrete instruction words used as witnesses and counterexamples -/

/-- `addi x1, x0, 7`. -/
def wAddi7 : List Char := ("00000000011100000000000010010011").toList

/-- `addi x1, x0, 10`. -/
def wAddi10 : List Char := ("00000000101000000000000010010011").toList

/-- `jalr x0, 0(x1)`. -/
def wJalrX1 : List Char := ("00000000000000001000000001100111").toList

/-- `jalr x1, 8(x0)`. -/
def wJalr8 : List Char := ("00000000100000000000000011100111").toList

/-- `lw x3, 0(x0)` — address 0 is outside the data-memory region. -/
def wLwZero : List Char := ("00000000000000000010000110000011").toList

/-- `sw x0, 0(x0)` — address 0 is outside the data-memory region. -/
def wSwDrop : List Char := ("00000000000000000010000000100011").toList

/-- `srl x3, x2, x0` (`funct3 = "101"`). -/
def wSrl : List Char := ("00000000000000010101000110110011").toList

/-- An all-zero word: its opcode `0000000` matches no instruction type. -/
def wInvalid : List Char := List.replicate 32 '0'

/-- A 32-character word whose opcode field holds non-binary characters. -/
def wBadOpcode : List Char := List.replicate 25 '0' ++ List.replicate 7 '2'

/-- A 32-character word whose rd field is `22222`.  The character `'2'` is
not a valid base-2 digit and is also no part of Python's wider numeral
syntax (sign, `0b` prefix, underscore, whitespace), so `int("22222", 2)`
raises `ValueError` unconditionally — this word's rd parse fails both in
CPython and in this model. -/
def wBadRd : List Char :=
  List.replicate 20 '0' ++ List.replicate 5 '2' ++ ("0000000").toList

/-- C6.  A 32-character binary word whose 7-bit opcode field matches none of
the seven recognized opcodes makes `ExecuteInstruction` advance pc by exactly
4 and leave every register and memory word unchanged: a silent no-op, not an
error. -/
theorem C6_invalid_opcode_noop (w : List Char) (PC : Int) (s : SimState)
    (hlen : w.length = 32)
    (hbin : ∀ c ∈ w, c = '0' ∨ c = '1')
    (hinv : CheckType (strSlice w 25 32) = "invalid") :
    ExecuteInstruction w PC s = some (false, PC + 4, s) := by
  have hhalt : ¬ (w = HaltInst) := by
    intro he
    rw [he] at hinv
    have hB : CheckType (strSlice HaltInst 25 32) = "B" := by decide
    rw [hB] at hinv
    exact absurd hinv (by decide)
  have hs20 : (strSlice w 20 25).length = 5 :=
    strSlice_length w 20 25 (by omega) (by omega)
  have hs12 : (strSlice w 12 17).length = 5 :=
    strSlice_length w 12 17 (by omega) (by omega)
  have hs7 : (strSlice w 7 12).length = 5 :=
    strSlice_length w 7 12 (by omega) (by omega)
  obtain ⟨rd, hrd⟩ := parseBin_some_of_bin _
    (by intro hnil; rw [hnil] at hs20; simp at hs20)
    (fun c hc => hbin c (strSlice_mem _ _ _ c hc))
  obtain ⟨rs1, hrs1⟩ := parseBin_some_of_bin _
    (by intro hnil; rw [hnil] at hs12; simp at hs12)
    (fun c hc => hbin c (strSlice_mem _ _ _ c hc))
  obtain ⟨rs2, hrs2⟩ := parseBin_some_of_bin _
    (by intro hnil; rw [hnil] at hs7; simp at hs7)
    (fun c hc => hbin c (strSlice_mem _ _ _ c hc))
  unfold ExecuteInstruction
  rw [if_neg (show ¬ w.length ≠ 32 by omega), if_neg hhalt,
    hrd, Option.some_bind, hrs1, Option.some_bind, hrs2, Option.some_bind, hinv,
    if_neg (show ("invalid" : String) ≠ "R" by decide),
    if_neg (show ("invalid" : String) ≠ "I" by decide),
    if_neg (show ("invalid" : String) ≠ "S" by decide),
    if_neg (show ("invalid" : String) ≠ "B" by decide),
    if_neg (show ("invalid" : String) ≠ "J" by decide)]

/-- Witness for C6: the all-zero word is a silent no-op from reset. -/
theorem C6_invalid_opcode_noop_witness :
    ExecuteInstruction wInvalid 0 ResetSimulator = some (false, 0 + 4, ResetSimulator) :=
  C6_invalid_opcode_noop wInvalid 0 ResetSimulator (by decide) (by decide) (by decide)

/-- C7 (amended).  A word that is not exactly 32 characters long always
fails with a decode error (the source raises `ValueError` before anything
else, modelled as `none`).  Non-binary characters, by contrast, do not
guarantee failure: the counterexample `C7_counterexample` shows a word with
`'2'`s in the opcode field executing silently, because the opcode is only
string-compared, never parsed — failure occurs only when a field that the
execution path feeds to `int(_, 2)` is unparseable, as in the second
conjunct, where the rd field `22222` (unparseable in CPython's base-2
numeral syntax as well) aborts the word. -/
theorem C7_malformed_word_fails (w : List Char) (PC : Int) (s : SimState) :
    (w.length ≠ 32 → ExecuteInstruction w PC s = none) ∧
    ExecuteInstruction wBadRd 0 ResetSimulator = none := by
  constructor
  · intro hbadlen
    unfold ExecuteInstruction
    rw [if_pos hbadlen]
  · decide

/-- Witness for C7: a 1-character word fails. -/
theorem C7_malformed_word_fails_witness :
    ExecuteInstruction ['0'] 0 ResetSimulator = none :=
  (C7_malformed_word_fails ['0'] 0 ResetSimulator).1 (by decide)

/-- Counterexample to C7 as stated: `wBadOpcode` is 32 characters long and
contains characters other than `'0'`/`'1'` (seven `'2'`s in the opcode
field), yet `ExecuteInstruction` does not fail — it silently executes the
word as an invalid-opcode no-op, returning pc + 4 and the unchanged state. -/
theorem C7_counterexample :
    wBadOpcode.length = 32 ∧ (¬ ∀ c ∈ wBadOpcode, c = '0' ∨ c = '1') ∧
    ExecuteInstruction wBadOpcode 0 ResetSimulator
      = some (false, 4, ResetSimulator) := by
  refine ⟨by decide, by decide, by decide⟩

/-- C3.  An `lw` whose computed address `rs1 + imm` is outside the data-memory
region or not 4-byte aligned writes exactly the 32-bit zero word to rd and
raises no error; an `sw` whose computed address fails the same check silently
drops the write (no memory word changes, no register changes); in both cases
pc advances by 4. -/
theorem C3_out_of_range_access :
    (∀ (w : List Char) (PC : Int) (s : SimState) (rd rs1 rs2 : Nat)
        (immVal rs1Val : Int),
      w.length = 32 →
      strSlice w 25 32 = ("0000011").toList →
      parseBin (strSlice w 20 25) = some rd →
      parseBin (strSlice w 12 17) = some rs1 →
      parseBin (strSlice w 7 12) = some rs2 →
      BinaryToDecimal (strSlice w 0 12) = some immVal →
      BinaryToDecimal (s.r.getD rs1 []) = some rs1Val →
      ¬ (0 ≤ Int.fdiv (rs1Val + immVal - MemStart) 4 ∧
          Int.fdiv (rs1Val + immVal - MemStart) 4 < (MemSize : Int) ∧
          (rs1Val + immVal) % 4 = 0) →
      ExecuteInstruction w PC s
        = some (false, PC + 4, { s with r := s.r.set rd (List.replicate 32 '0') })) ∧
    (∀ (w : List Char) (PC : Int) (s : SimState) (rd rs1 rs2 : Nat)
        (immVal rs1Val rs2Val : Int),
      w.length = 32 →
      strSlice w 25 32 = ("0100011").toList →
      parseBin (strSlice w 20 25) = some rd →
      parseBin (strSlice w 12 17) = some rs1 →
      parseBin (strSlice w 7 12) = some rs2 →
      BinaryToDecimal (strSlice w 0 7 ++ strSlice w 20 25) = some immVal →
      BinaryToDecimal (s.r.getD rs1 []) = some rs1Val →
      BinaryToDecimal (s.r.getD rs2 []) = some rs2Val →
      ¬ (0 ≤ Int.fdiv (rs1Val + immVal - MemStart) 4 ∧
          Int.fdiv (rs1Val + immVal - MemStart) 4 < (MemSize : Int) ∧
          (rs1Val + immVal) % 4 = 0) →
      ExecuteInstruction w PC s = some (false, PC + 4, s)) := by
  constructor
  · intro w PC s rd rs1 rs2 immVal rs1Val hlen hop hrd hrs1 hrs2 himm hr1 haddr
    have hhalt : ¬ (w = HaltInst) := by
      intro he
      rw [he] at hop
      exact absurd hop (by decide)
    have hct : CheckType (strSlice w 25 32) = "I" := by rw [hop]; decide
    have hIT : ITypeGet (strSlice w 25 32) = some ("lw") := by rw [hop]; decide
    unfold ExecuteInstruction
    rw [if_neg (show ¬ w.length ≠ 32 by omega), if_neg hhalt,
      hrd, Option.some_bind, hrs1, Option.some_bind, hrs2, Option.some_bind, hct,
      if_neg (show ("I" : String) ≠ "R" by decide),
      if_pos (show ("I" : String) = "I" from rfl),
      himm, Option.some_bind, hr1, Option.some_bind, hIT, Option.some_bind,
      if_neg (show ("lw" : String) ≠ "addi" by decide),
      if_neg (show ("lw" : String) ≠ "jalr" by decide),
      if_pos (show ("lw" : String) = "lw" from rfl),
      if_neg haddr]
  · intro w PC s rd rs1 rs2 immVal rs1Val rs2Val hlen hop hrd hrs1 hrs2 himm hr1 hr2 haddr
    have hhalt : ¬ (w = HaltInst) := by
      intro he
      rw [he] at hop
      exact absurd hop (by decide)
    have hct : CheckType (strSlice w 25 32) = "S" := by rw [hop]; decide
    have hST : STypeGet (strSlice w 25 32) = some ("sw") := by rw [hop]; decide
    unfold ExecuteInstruction
    rw [if_neg (show ¬ w.length ≠ 32 by omega), if_neg hhalt,
      hrd, Option.some_bind, hrs1, Option.some_bind, hrs2, Option.some_bind, hct,
      if_neg (show ("S" : String) ≠ "R" by decide),
      if_neg (show ("S" : String) ≠ "I" by decide),
      if_pos (show ("S" : String) = "S" from rfl),
      himm, Option.some_bind, hr1, Option.some_bind, hr2, Option.some_bind,
      hST, Option.some_bind,
      if_pos (show ("sw" : String) = "sw" from rfl),
      if_neg haddr]

/-- Witness for C3: from reset, `lw x3, 0(x0)` reads address 0 (unmapped) and
zeroes x3, and `sw x0, 0(x0)` drops its write, both advancing pc to 4. -/
theorem C3_out_of_range_access_witness :
    ExecuteInstruction wLwZero 0 ResetSimulator
      = some (false, 0 + 4,
          { ResetSimulator with
            r := ResetSimulator.r.set 3 (List.replicate 32 '0') }) ∧
    ExecuteInstruction wSwDrop 0 ResetSimulator
      = some (false, 0 + 4, ResetSimulator) := by
  constructor
  · exact C3_out_of_range_access.1 wLwZero 0 ResetSimulator 3 0 0 0 0
      (by decide) (by decide) (by decide) (by decide) (by decide) (by decide)
      (by decide) (by decide)
  · exact C3_out_of_range_access.2 wSwDrop 0 ResetSimulator 0 0 0 0 0 0
      (by decide) (by decide) (by decide) (by decide) (by decide) (by decide)
      (by decide) (by decide) (by decide)

/-- C4.  For a `jalr` word (I-type, opcode `1100111`): if rd is not 0,
register rd receives pc + 4; if rd is 0, no register is written; and the new
pc is `(rs1Val + imm) & ~1` (Mathlib's two's-complement `Int.land` with `-2`,
exactly Python's bitwise AND) — the computed target fully replaces pc, with
no pc + 4 fallthrough. -/
theorem C4_jalr_semantics (w : List Char) (PC : Int) (s : SimState)
    (rd rs1 rs2 : Nat) (immVal rs1Val : Int)
    (hlen : w.length = 32)
    (hop : strSlice w 25 32 = ("1100111").toList)
    (hrd : parseBin (strSlice w 20 25) = some rd)
    (hrs1 : parseBin (strSlice w 12 17) = some rs1)
    (hrs2 : parseBin (strSlice w 7 12) = some rs2)
    (himm : BinaryToDecimal (strSlice w 0 12) = some immVal)
    (hr1 : BinaryToDecimal (s.r.getD rs1 []) = some rs1Val) :
    ExecuteInstruction w PC s
      = some (false, Int.land (rs1Val + immVal) (-2),
          if rd ≠ 0 then
            { s with r := s.r.set rd (ConvertToBinary (PC + 4) 32 false) }
          else s) := by
  have hhalt : ¬ (w = HaltInst) := by
    intro he
    rw [he] at hop
    exact absurd hop (by decide)
  have hct : CheckType (strSlice w 25 32) = "I" := by rw [hop]; decide
  have hIT : ITypeGet (strSlice w 25 32) = some ("jalr") := by rw [hop]; decide
  rw [land_neg_two]
  unfold ExecuteInstruction
  rw [if_neg (show ¬ w.length ≠ 32 by omega), if_neg hhalt,
    hrd, Option.some_bind, hrs1, Option.some_bind, hrs2, Option.some_bind, hct,
    if_neg (show ("I" : String) ≠ "R" by decide),
    if_pos (show ("I" : String) = "I" from rfl),
    himm, Option.some_bind, hr1, Option.some_bind, hIT, Option.some_bind,
    if_neg (show ("jalr" : String) ≠ "addi" by decide),
    if_pos (show ("jalr" : String) = "jalr" from rfl)]

/-- Witness for C4: from reset, `jalr x1, 8(x0)` links x1 := 4 and jumps to
`(0 + 8) & ~1 = 8`. -/
theorem C4_jalr_semantics_witness :
    ExecuteInstruction wJalr8 0 ResetSimulator
      = some (false, Int.land (0 + 8) (-2),
          if (1 : Nat) ≠ 0 then
            { ResetSimulator with
              r := ResetSimulator.r.set 1 (ConvertToBinary (0 + 4) 32 false) }
          else ResetSimulator) :=
  C4_jalr_semantics wJalr8 0 ResetSimulator 1 0 8 8 0
    (by decide) (by decide) (by decide) (by decide) (by decide) (by decide)
    (by decide)

/-- C5.  For an R-type word with `funct3 = "101"`, the value stored to rd is
the arithmetic (sign-extending, floor) right shift of the signed rs1 value by
`rs2Val & 0x1F` (Mathlib's two's-complement `Int.land` with 31, exactly
Python's bitwise AND), normalized to 32-bit two's complement by
`ConvertToBinary`, and pc advances by 4. -/
theorem C5_srl_arithmetic_shift (w : List Char) (PC : Int) (s : SimState)
    (rd rs1 rs2 : Nat) (rs1Val rs2Val : Int)
    (hlen : w.length = 32)
    (hop : strSlice w 25 32 = ("0110011").toList)
    (hf3 : strSlice w 17 20 = ("101").toList)
    (hrd : parseBin (strSlice w 20 25) = some rd)
    (hrs1 : parseBin (strSlice w 12 17) = some rs1)
    (hrs2 : parseBin (strSlice w 7 12) = some rs2)
    (hr1 : BinaryToDecimal (s.r.getD rs1 []) = some rs1Val)
    (hr2 : BinaryToDecimal (s.r.getD rs2 []) = some rs2Val) :
    ExecuteInstruction w PC s
      = some (false, PC + 4,
          { s with r := s.r.set rd (ConvertToBinary
              (Int.fdiv rs1Val (2 ^ ((Int.land rs2Val 31).toNat))) 32 false) }) := by
  have hhalt : ¬ (w = HaltInst) := by
    intro he
    rw [he] at hop
    exact absurd hop (by decide)
  have hct : CheckType (strSlice w 25 32) = "R" := by rw [hop]; decide
  rw [land_thirty_one]
  unfold ExecuteInstruction
  rw [if_neg (show ¬ w.length ≠ 32 by omega), if_neg hhalt,
    hrd, Option.some_bind, hrs1, Option.some_bind, hrs2, Option.some_bind, hct,
    if_pos (show ("R" : String) = "R" from rfl),
    hr1, Option.some_bind, hr2, Option.some_bind, hf3,
    if_neg (show ("101").toList ≠ ("000").toList by decide),
    if_neg (show ("101").toList ≠ ("010").toList by decide),
    if_pos (show ("101").toList = ("101").toList from rfl)]

/-- Witness for C5: from reset, `srl x3, x2, x0` stores the x2 value 380
shifted right by 0 into x3. -/
theorem C5_srl_arithmetic_shift_witness :
    ExecuteInstruction wSrl 0 ResetSimulator
      = some (false, 0 + 4,
          { ResetSimulator with
            r := ResetSimulator.r.set 3 (ConvertToBinary
              (Int.fdiv 380 (2 ^ ((Int.land 0 31).toNat))) 32 false) }) :=
  C5_srl_arithmetic_shift wSrl 0 ResetSimulator 3 2 0 380 0
    (by decide) (by decide) (by decide) (by decide) (by decide) (by decide)
    (by decide) (by decide)

/-- Structural effect of one successful `ExecuteInstruction` step: the
register file and memory keep their lengths, every register value afterwards
is an old register value, an old memory word, or a well-formed (encoder- or
zero-produced) word, every memory word afterwards is an old memory word or an
old register value, and the new pc is the old pc, the old pc plus 4, an even
absolute target, or the old pc plus an even offset. -/
theorem ExecuteInstruction_step_shape (w : List Char) (PC : Int) (s : SimState)
    (halt : Bool) (PCn : Int) (sn : SimState)
    (hr : s.r.length = 32) (hm : s.Memory.length = MemSize)
    (hE : ExecuteInstruction w PC s = some (halt, PCn, sn)) :
    sn.r.length = s.r.length ∧ sn.Memory.length = s.Memory.length ∧
    (∀ v ∈ sn.r, v ∈ s.r ∨ v ∈ s.Memory ∨ WFWord v) ∧
    (∀ v ∈ sn.Memory, v ∈ s.Memory ∨ v ∈ s.r) ∧
    (PCn = PC ∨ PCn = PC + 4 ∨ PCn % 2 = 0 ∨ ∃ d : Int, PCn = PC + 2 * d) := by
  unfold ExecuteInstruction at hE
  by_cases h32 : w.length ≠ 32
  · rw [if_pos h32] at hE
    exact Option.noConfusion hE
  rw [if_neg h32] at hE
  by_cases hhalt : w = HaltInst
  · -- the halt sentinel: state and pc unchanged
    rw [if_pos hhalt] at hE
    simp only [Option.some.injEq, Prod.mk.injEq] at hE
    obtain ⟨hb, hp, hs⟩ := hE
    subst hp; subst hs
    exact ⟨rfl, rfl, fun v hv => Or.inl hv, fun v hv => Or.inl hv, Or.inl rfl⟩
  rw [if_neg hhalt] at hE
  rw [Option.bind_eq_some] at hE
  obtain ⟨rd, hrd, hE⟩ := hE
  rw [Option.bind_eq_some] at hE
  obtain ⟨rs1, hrs1, hE⟩ := hE
  rw [Option.bind_eq_some] at hE
  obtain ⟨rs2, hrs2, hE⟩ := hE
  have hlen32 : w.length = 32 := by omega
  by_cases hR : CheckType (strSlice w 25 32) = "R"
  · -- R type: rd := encoder output, pc += 4
    rw [if_pos hR] at hE
    rw [Option.bind_eq_some] at hE
    obtain ⟨rs1Val, hr1, hE⟩ := hE
    rw [Option.bind_eq_some] at hE
    obtain ⟨rs2Val, hr2, hE⟩ := hE
    simp only [Option.some.injEq, Prod.mk.injEq] at hE
    obtain ⟨hb, hp, hs⟩ := hE
    subst hp; subst hs
    refine ⟨by simp, rfl, ?_, fun v hv => Or.inl hv, Or.inr (Or.inl rfl)⟩
    intro v hv
    rcases List.mem_or_eq_of_mem_set hv with h | h
    · exact Or.inl h
    · refine Or.inr (Or.inr ?_)
      rw [h]
      exact WFWord_ConvertToBinary _ _
  rw [if_neg hR] at hE
  by_cases hI : CheckType (strSlice w 25 32) = "I"
  · -- I type
    rw [if_pos hI] at hE
    rw [Option.bind_eq_some] at hE
    obtain ⟨immVal, himm, hE⟩ := hE
    rw [Option.bind_eq_some] at hE
    obtain ⟨rs1Val, hr1, hE⟩ := hE
    rw [Option.bind_eq_some] at hE
    obtain ⟨o, ho, hE⟩ := hE
    by_cases hoa : o = "addi"
    · -- addi
      rw [if_pos hoa] at hE
      simp only [Option.some.injEq, Prod.mk.injEq] at hE
      obtain ⟨hb, hp, hs⟩ := hE
      subst hp; subst hs
      refine ⟨by simp, rfl, ?_, fun v hv => Or.inl hv, Or.inr (Or.inl rfl)⟩
      intro v hv
      rcases List.mem_or_eq_of_mem_set hv with h | h
      · exact Or.inl h
      · refine Or.inr (Or.inr ?_)
        rw [h]
        exact WFWord_ConvertToBinary _ _
    rw [if_neg hoa] at hE
    by_cases hoj : o = "jalr"
    · -- jalr: pc := even target, rd optionally linked
      rw [if_pos hoj] at hE
      simp only [Option.some.injEq, Prod.mk.injEq] at hE
      obtain ⟨hb, hp, hs⟩ := hE
      subst hp; subst hs
      refine ⟨?_, ?_, ?_, ?_, Or.inr (Or.inr (Or.inl (by omega)))⟩
      · by_cases h0 : rd ≠ 0
        · rw [if_pos h0]; simp
        · rw [if_neg h0]
      · by_cases h0 : rd ≠ 0
        · rw [if_pos h0]
        · rw [if_neg h0]
      · intro v hv
        by_cases h0 : rd ≠ 0
        · rw [if_pos h0] at hv
          rcases List.mem_or_eq_of_mem_set hv with h | h
          · exact Or.inl h
          · refine Or.inr (Or.inr ?_)
            rw [h]
            exact WFWord_ConvertToBinary _ _
        · rw [if_neg h0] at hv
          exact Or.inl hv
      · intro v hv
        by_cases h0 : rd ≠ 0
        · rw [if_pos h0] at hv
          exact Or.inl hv
        · rw [if_neg h0] at hv
          exact Or.inl hv
    rw [if_neg hoj] at hE
    by_cases hol : o = "lw"
    · -- lw: rd := memory word or zeros, pc += 4
      rw [if_pos hol] at hE
      simp only [Option.some.injEq, Prod.mk.injEq] at hE
      obtain ⟨hb, hp, hs⟩ := hE
      subst hp; subst hs
      refine ⟨by simp, rfl, ?_, fun v hv => Or.inl hv, Or.inr (Or.inl rfl)⟩
      intro v hv
      rcases List.mem_or_eq_of_mem_set hv with h | h
      · exact Or.inl h
      by_cases hc : 0 ≤ Int.fdiv (rs1Val + immVal - MemStart) 4 ∧
          Int.fdiv (rs1Val + immVal - MemStart) 4 < (MemSize : Int) ∧
          (rs1Val + immVal) % 4 = 0
      · rw [if_pos hc] at h
        obtain ⟨hc1, hc2, hc3⟩ := hc
        have hms : (MemSize : Int) = 32 := by decide
        rw [hms] at hc2
        have hidx : (Int.fdiv (rs1Val + immVal - MemStart) 4).toNat
            < s.Memory.length := by
          rw [hm]
          show _ < 32
          omega
        rw [h]
        exact Or.inr (Or.inl (getD_mem_of_lt _ _ _ hidx))
      · rw [if_neg hc] at h
        rw [h]
        exact Or.inr (Or.inr WFWord_zeros)
    · -- the unreachable I-type fallthrough returns pc unchanged
      rw [if_neg hol] at hE
      simp only [Option.some.injEq, Prod.mk.injEq] at hE
      obtain ⟨hb, hp, hs⟩ := hE
      subst hp; subst hs
      exact ⟨rfl, rfl, fun v hv => Or.inl hv, fun v hv => Or.inl hv, Or.inl rfl⟩
  rw [if_neg hI] at hE
  by_cases hS : CheckType (strSlice w 25 32) = "S"
  · -- S type: memory word := register value (or dropped), pc += 4
    rw [if_pos hS] at hE
    rw [Option.bind_eq_some] at hE
    obtain ⟨immVal, himm, hE⟩ := hE
    rw [Option.bind_eq_some] at hE
    obtain ⟨rs1Val, hr1, hE⟩ := hE
    rw [Option.bind_eq_some] at hE
    obtain ⟨rs2Val, hr2, hE⟩ := hE
    rw [Option.bind_eq_some] at hE
    obtain ⟨o, ho, hE⟩ := hE
    simp only [Option.some.injEq, Prod.mk.injEq] at hE
    obtain ⟨hb, hp, hs⟩ := hE
    subst hp; subst hs
    have hrs2lt : rs2 < 32 := parseBin_field_lt_32 _ _
      (strSlice_length w 7 12 (by omega) (by omega)) hrs2
    by_cases hosw : o = "sw"
    · rw [if_pos hosw]
      by_cases hc : 0 ≤ Int.fdiv (rs1Val + immVal - MemStart) 4 ∧
          Int.fdiv (rs1Val + immVal - MemStart) 4 < (MemSize : Int) ∧
          (rs1Val + immVal) % 4 = 0
      · rw [if_pos hc]
        refine ⟨rfl, by simp, fun v hv => Or.inl hv, ?_, Or.inr (Or.inl rfl)⟩
        intro v hv
        rcases List.mem_or_eq_of_mem_set hv with h | h
        · exact Or.inl h
        · refine Or.inr ?_
          rw [h]
          exact getD_mem_of_lt _ _ _ (by omega)
      · rw [if_neg hc]
        exact ⟨rfl, rfl, fun v hv => Or.inl hv, fun v hv => Or.inl hv,
          Or.inr (Or.inl rfl)⟩
    · rw [if_neg hosw]
      exact ⟨rfl, rfl, fun v hv => Or.inl hv, fun v hv => Or.inl hv,
        Or.inr (Or.inl rfl)⟩
  rw [if_neg hS] at hE
  by_cases hB : CheckType (strSlice w 25 32) = "B"
  · -- B type: pc moves by an even immediate or by 4
    rw [if_pos hB] at hE
    rw [Option.bind_eq_some] at hE
    obtain ⟨immVal, himm, hE⟩ := hE
    rw [Option.bind_eq_some] at hE
    obtain ⟨rs1Val, hr1, hE⟩ := hE
    rw [Option.bind_eq_some] at hE
    obtain ⟨rs2Val, hr2, hE⟩ := hE
    have himm2 : immVal % 2 = 0 :=
      BinaryToDecimal_snoc_zero_even _ _ himm
    by_cases hc1 : BTypeFunct3Get (strSlice w 17 20) = some ("beq") ∧ rs1Val = rs2Val
    · rw [if_pos hc1] at hE
      simp only [Option.some.injEq, Prod.mk.injEq] at hE
      obtain ⟨hb, hp, hs⟩ := hE
      subst hp; subst hs
      exact ⟨rfl, rfl, fun v hv => Or.inl hv, fun v hv => Or.inl hv,
        Or.inr (Or.inr (Or.inr ⟨immVal / 2, by omega⟩))⟩
    rw [if_neg hc1] at hE
    by_cases hc2 : BTypeFunct3Get (strSlice w 17 20) = some ("bne") ∧ rs1Val ≠ rs2Val
    · rw [if_pos hc2] at hE
      simp only [Option.some.injEq, Prod.mk.injEq] at hE
      obtain ⟨hb, hp, hs⟩ := hE
      subst hp; subst hs
      exact ⟨rfl, rfl, fun v hv => Or.inl hv, fun v hv => Or.inl hv,
        Or.inr (Or.inr (Or.inr ⟨immVal / 2, by omega⟩))⟩
    · rw [if_neg hc2] at hE
      simp only [Option.some.injEq, Prod.mk.injEq] at hE
      obtain ⟨hb, hp, hs⟩ := hE
      subst hp; subst hs
      exact ⟨rfl, rfl, fun v hv => Or.inl hv, fun v hv => Or.inl hv,
        Or.inr (Or.inl rfl)⟩
  rw [if_neg hB] at hE
  by_cases hJ : CheckType (strSlice w 25 32) = "J"
  · -- J type: pc moves by an even immediate, rd optionally linked
    rw [if_pos hJ] at hE
    rw [Option.bind_eq_some] at hE
    obtain ⟨immVal, himm, hE⟩ := hE
    have himm2 : immVal % 2 = 0 :=
      BinaryToDecimal_snoc_zero_even _ _ himm
    simp only [Option.some.injEq, Prod.mk.injEq] at hE
    obtain ⟨hb, hp, hs⟩ := hE
    subst hp; subst hs
    refine ⟨?_, ?_, ?_, ?_, Or.inr (Or.inr (Or.inr ⟨immVal / 2, by omega⟩))⟩
    · by_cases h0 : rd ≠ 0
      · rw [if_pos h0]; simp
      · rw [if_neg h0]
    · by_cases h0 : rd ≠ 0
      · rw [if_pos h0]
      · rw [if_neg h0]
    · intro v hv
      by_cases h0 : rd ≠ 0
      · rw [if_pos h0] at hv
        rcases List.mem_or_eq_of_mem_set hv with h | h
        · exact Or.inl h
        · refine Or.inr (Or.inr ?_)
          rw [h]
          exact WFWord_ConvertToBinary _ _
      · rw [if_neg h0] at hv
        exact Or.inl hv
    · intro v hv
      by_cases h0 : rd ≠ 0
      · rw [if_pos h0] at hv
        exact Or.inl hv
      · rw [if_neg h0] at hv
        exact Or.inl hv
  · -- invalid opcode: silent no-op
    rw [if_neg hJ] at hE
    simp only [Option.some.injEq, Prod.mk.injEq] at hE
    obtain ⟨hb, hp, hs⟩ := hE
    subst hp; subst hs
    exact ⟨rfl, rfl, fun v hv => Or.inl hv, fun v hv => Or.inl hv,
      Or.inr (Or.inl rfl)⟩

/-- C10.  After `ResetSimulator`, and after every successful
`ExecuteInstruction` call on a well-formed 32-character word, every one of
the 32 registers and every one of the `MemSize` memory words is a string of
exactly 32 characters, each `'0'` or `'1'`. -/
theorem C10_state_wellformed :
    WFState ResetSimulator ∧
    (∀ (w : List Char) (PC : Int) (s : SimState) (halt : Bool) (PCn : Int)
        (sn : SimState), WFWord w → WFState s →
      ExecuteInstruction w PC s = some (halt, PCn, sn) → WFState sn) := by
  constructor
  · decide
  · intro w PC s halt PCn sn hw hs hE
    obtain ⟨hr, hm, hrw, hmw⟩ := hs
    obtain ⟨hl1, hl2, hmr, hmm, _⟩ :=
      ExecuteInstruction_step_shape w PC s halt PCn sn hr hm hE
    refine ⟨hl1.trans hr, hl2.trans hm, ?_, ?_⟩
    · intro v hv
      rcases hmr v hv with h | h | h
      · exact hrw v h
      · exact hmw v h
      · exact h
    · intro v hv
      rcases hmm v hv with h | h
      · exact hmw v h
      · exact hrw v h

/-- Witness for C10: the reset state is well-formed, and executing
`addi x1, x0, 7` from it yields a well-formed state. -/
theorem C10_state_wellformed_witness :
    WFState ResetSimulator ∧
    (∃ out, ExecuteInstruction wAddi7 0 ResetSimulator = some out ∧
      WFState out.2.2) := by
  refine ⟨C10_state_wellformed.1, ?_⟩
  have hE : ExecuteInstruction wAddi7 0 ResetSimulator
      = some (false, 4, { ResetSimulator with
          r := ResetSimulator.r.set 1 (ConvertToBinary 7 32 false) }) := by decide
  exact ⟨_, hE, C10_state_wellformed.2 wAddi7 0 ResetSimulator _ _ _
    (by decide) C10_state_wellformed.1 hE⟩

/-- C9 (amended).  In any successful run, every recorded program counter is
even: each step either keeps pc, adds 4, adds an even branch or jump offset,
or jumps to a `& ~1`-masked (hence even) jalr target.  Divisibility by 4 does
not hold in general — see `C9_counterexample`, where a jalr lands on pc = 10. -/
theorem C9_pc_even (fuel : Nat) (prog : List (List Char)) (pc : Int)
    (s : SimState) (tr : List (Int × SimState))
    (hr : s.r.length = 32) (hm : s.Memory.length = MemSize)
    (hpc : pc % 2 = 0)
    (hE : RunLoop fuel prog pc s = some tr) :
    ∀ p ∈ tr, p.1 % 2 = 0 := by
  induction fuel generalizing pc s tr with
  | zero =>
    unfold RunLoop at hE
    exact Option.noConfusion hE
  | succ fuel ih =>
    unfold RunLoop at hE
    by_cases hcond : 0 ≤ Int.fdiv pc 4 ∧ Int.fdiv pc 4 < (prog.length : Int)
    · rw [if_pos hcond] at hE
      cases hx : ExecuteInstruction (prog.getD (Int.fdiv pc 4).toNat []) pc s with
      | none =>
        rw [hx] at hE
        exact Option.noConfusion hE
      | some out =>
        obtain ⟨h1, pcn, sn⟩ := out
        rw [hx] at hE
        obtain ⟨hl1, hl2, _, _, hpcd⟩ :=
          ExecuteInstruction_step_shape _ _ _ _ _ _ hr hm hx
        have hpcn : pcn % 2 = 0 := by
          rcases hpcd with h | h | h | ⟨d, h⟩ <;> omega
        cases h1 with
        | true =>
          simp only [if_pos rfl] at hE
          replace hE : [(pcn, sn)] = tr := by simpa using hE
          subst hE
          intro p hp
          simp only [List.mem_singleton] at hp
          rw [hp]
          exact hpcn
        | false =>
          simp only [Bool.false_eq_true, if_neg] at hE
          cases hrest : RunLoop fuel prog pcn sn with
          | none =>
            rw [hrest] at hE
            exact Option.noConfusion hE
          | some rest =>
            rw [hrest] at hE
            replace hE : (pcn, sn) :: rest = tr := by simpa using hE
            subst hE
            intro p hp
            rcases List.mem_cons.mp hp with h | h
            · rw [h]
              exact hpcn
            · exact ih pcn sn rest (hl1.trans hr) (hl2.trans hm) hpcn hrest p h
    · rw [if_neg hcond] at hE
      replace hE : ([] : List (Int × SimState)) = tr := by simpa using hE
      subst hE
      intro p hp
      simp at hp

/-- The two-instruction program `addi x1, x0, 10; jalr x0, 0(x1)` used to
show that the program counter is not always a multiple of 4. -/
def C9prog : List (List Char) := [wAddi10, wJalrX1]

/-- Counterexample to C9 as stated: running `addi x1, x0, 10; jalr x0, 0(x1)`
from reset records program counters 4 and then 10 — the jalr target 10 is
even (its low bit is cleared) but not divisible by 4, refuting the claim
that every reachable pc is a multiple of 4. -/
theorem C9_counterexample :
    (RunLoop 3 C9prog 0 ResetSimulator).map (List.map Prod.fst)
      = some [4, 10] ∧ ¬ ((10 : Int) % 4 = 0) := by
  exact ⟨by decide, by decide⟩

/-- Witness for the amended C9 at the counterexample run: both recorded
program counters are even. -/
theorem C9_pc_even_witness :
    ∃ tr, RunLoop 3 C9prog 0 ResetSimulator = some tr ∧
      ∀ p ∈ tr, p.1 % 2 = 0 := by
  obtain ⟨tr, htr⟩ : ∃ tr, RunLoop 3 C9prog 0 ResetSimulator = some tr :=
    ⟨_, rfl⟩
  exact ⟨tr, htr, C9_pc_even 3 C9prog 0 ResetSimulator tr (by decide)
    (by decide) (by decide) htr⟩

/-- C2.  Started from a freshly reset state, a program whose first word is
the halt sentinel records exactly one trace line; the program counter in that
line is the initial value 0 (the halting step returns pc unchanged), and the
final state is exactly the reset state: every register holds its reset
default — all zeros except the stack-pointer register x2, which holds 380. -/
theorem C2_halt_first (rest : List (List Char)) (fuel : Nat) :
    RunLoop (fuel + 1) (HaltInst :: rest) 0 ResetSimulator
      = some [(0, ResetSimulator)] ∧
    (∀ i : Nat, i < 32 → i ≠ 2 →
      ResetSimulator.r.getD i [] = List.replicate 32 '0') ∧
    ResetSimulator.r.getD 2 [] = natToBinChars 32 380 := by
  refine ⟨?_, by decide, by decide⟩
  have hcond : 0 ≤ Int.fdiv 0 4 ∧
      Int.fdiv 0 4 < (((HaltInst :: rest).length : Nat) : Int) := by
    constructor
    · decide
    · have h0 : Int.fdiv 0 4 = 0 := by decide
      rw [h0, List.length_cons]
      exact_mod_cast Nat.succ_pos _
  have hinst : (HaltInst :: rest).getD (Int.fdiv 0 4).toNat [] = HaltInst := rfl
  have hE : ExecuteInstruction HaltInst 0 ResetSimulator
      = some (true, 0, ResetSimulator) := by decide
  unfold RunLoop
  rw [if_pos hcond, hinst, hE]
  rfl

/-- Witness for C2 with the one-instruction halt program. -/
theorem C2_halt_first_witness :
    RunLoop 1 [HaltInst] 0 ResetSimulator = some [(0, ResetSimulator)] :=
  (C2_halt_first [] 0).1

/-- A word that encodes an `addi`: 32 binary characters with opcode
`0010011`. -/
def AddiWord (w : List Char) : Prop :=
  w.length = 32 ∧ (∀ c ∈ w, c = '0' ∨ c = '1') ∧
    strSlice w 25 32 = ("0010011").toList

instance (w : List Char) : Decidable (AddiWord w) := by
  unfold AddiWord; infer_instance

/-- One `addi` step from a state with a well-formed register file always
succeeds, never halts, advances pc by 4, and keeps the register file
well-formed and the memory untouched. -/
theorem addi_step (w : List Char) (PC : Int) (s : SimState)
    (hw : AddiWord w) (hr : s.r.length = 32) (hwf : ∀ v ∈ s.r, WFWord v) :
    ∃ sn, ExecuteInstruction w PC s = some (false, PC + 4, sn) ∧
      sn.r.length = 32 ∧ (∀ v ∈ sn.r, WFWord v) ∧ sn.Memory = s.Memory := by
  obtain ⟨hlen, hbin, hop⟩ := hw
  have hhalt : ¬ (w = HaltInst) := by
    intro he
    rw [he] at hop
    exact absurd hop (by decide)
  have hs20 : (strSlice w 20 25).length = 5 :=
    strSlice_length w 20 25 (by omega) (by omega)
  have hs12 : (strSlice w 12 17).length = 5 :=
    strSlice_length w 12 17 (by omega) (by omega)
  have hs7 : (strSlice w 7 12).length = 5 :=
    strSlice_length w 7 12 (by omega) (by omega)
  have hs0 : (strSlice w 0 12).length = 12 :=
    strSlice_length w 0 12 (by omega) (by omega)
  obtain ⟨rd, hrdp⟩ := parseBin_some_of_bin _
    (by intro hnil; rw [hnil] at hs20; simp at hs20)
    (fun c hc => hbin c (strSlice_mem _ _ _ c hc))
  obtain ⟨rs1, hrs1p⟩ := parseBin_some_of_bin _
    (by intro hnil; rw [hnil] at hs12; simp at hs12)
    (fun c hc => hbin c (strSlice_mem _ _ _ c hc))
  obtain ⟨rs2, hrs2p⟩ := parseBin_some_of_bin _
    (by intro hnil; rw [hnil] at hs7; simp at hs7)
    (fun c hc => hbin c (strSlice_mem _ _ _ c hc))
  obtain ⟨imm, himm⟩ := BinaryToDecimal_some_of_bin _
    (by intro hnil; rw [hnil] at hs0; simp at hs0)
    (fun c hc => hbin c (strSlice_mem _ _ _ c hc))
  have hrs1lt : rs1 < 32 := parseBin_field_lt_32 _ _ hs12 hrs1p
  have hreg : s.r.getD rs1 [] ∈ s.r := getD_mem_of_lt _ _ _ (by omega)
  obtain ⟨hL, hB⟩ := hwf _ hreg
  obtain ⟨rs1Val, hr1⟩ := BinaryToDecimal_some_of_bin _
    (by intro hnil; rw [hnil] at hL; simp at hL) hB
  have hct : CheckType (strSlice w 25 32) = "I" := by rw [hop]; decide
  have hIT : ITypeGet (strSlice w 25 32) = some ("addi") := by rw [hop]; decide
  refine ⟨{ s with r := s.r.set rd (ConvertToBinary (rs1Val + imm) 32 false) },
    ?_, by simp [hr], ?_, rfl⟩
  · unfold ExecuteInstruction
    rw [if_neg (show ¬ w.length ≠ 32 by omega), if_neg hhalt,
      hrdp, Option.some_bind, hrs1p, Option.some_bind, hrs2p, Option.some_bind,
      hct, if_neg (show ("I" : String) ≠ "R" by decide),
      if_pos (show ("I" : String) = "I" from rfl),
      himm, Option.some_bind, hr1, Option.some_bind, hIT, Option.some_bind,
      if_pos (show ("addi" : String) = "addi" from rfl)]
  · intro v hv
    rcases List.mem_or_eq_of_mem_set hv with h | h
    · exact hwf v h
    · rw [h]
      exact WFWord_ConvertToBinary _ _

/-- Running an all-`addi` program from instruction index `k` with `d`
instructions remaining records exactly `d` further trace lines and then
stops because pc walks off the end of the instruction array. -/
theorem addi_run (prog : List (List Char)) (hp : ∀ w ∈ prog, AddiWord w) :
    ∀ (d k : Nat) (s : SimState), k + d = prog.length → s.r.length = 32 →
      (∀ v ∈ s.r, WFWord v) →
      ∃ tr, RunLoop (d + 1) prog (4 * (k : Int)) s = some tr ∧ tr.length = d := by
  intro d
  induction d with
  | zero =>
    intro k s hk hr hwf
    refine ⟨[], ?_, rfl⟩
    have hfd : Int.fdiv (4 * (k : Int)) 4 = (k : Int) :=
      Int.mul_fdiv_cancel_left _ (by norm_num)
    unfold RunLoop
    rw [if_neg ?hc]
    case hc =>
      rw [hfd]
      intro hcon
      have := hcon.2
      have hkeq : k = prog.length := by omega
      rw [hkeq] at this
      exact absurd this (by exact_mod_cast lt_irrefl _)
  | succ d ih =>
    intro k s hk hr hwf
    have hklt : k < prog.length := by omega
    have hfd : Int.fdiv (4 * (k : Int)) 4 = (k : Int) :=
      Int.mul_fdiv_cancel_left _ (by norm_num)
    have hcond : 0 ≤ Int.fdiv (4 * (k : Int)) 4 ∧
        Int.fdiv (4 * (k : Int)) 4 < (prog.length : Int) := by
      rw [hfd]
      exact ⟨by positivity, by exact_mod_cast hklt⟩
    have hinstmem : prog.getD k [] ∈ prog := getD_mem_of_lt _ _ _ hklt
    obtain ⟨sn, hstep, hrn, hwfn, _⟩ :=
      addi_step (prog.getD k []) (4 * (k : Int)) s (hp _ hinstmem) hr hwf
    obtain ⟨tr', htr', hlen'⟩ := ih (k + 1) sn (by omega) hrn hwfn
    have hcast : 4 * (((k + 1 : Nat)) : Int) = 4 * (k : Int) + 4 := by
      push_cast
      ring
    rw [hcast] at htr'
    refine ⟨(4 * (k : Int) + 4, sn) :: tr', ?_, by simp [hlen']⟩
    unfold RunLoop
    rw [if_pos hcond, hfd, Int.toNat_natCast, hstep]
    have hred : (match RunLoop (d + 1) prog (4 * (k : Int) + 4) sn with
        | none => none
        | some rest => some ((4 * (k : Int) + 4, sn) :: rest))
        = some ((4 * (k : Int) + 4, sn) :: tr') := by
      rw [htr']
    exact hred

/-- C8.  A program consisting only of `addi` instructions (and so containing
no halt sentinel) terminates, starting at pc = 0 from reset, after exactly
`len(program)` steps — one trace line per instruction — because pc walks off
the end of the instruction array. -/
theorem C8_addi_termination (prog : List (List Char))
    (hp : ∀ w ∈ prog, AddiWord w) (hnohalt : ∀ w ∈ prog, w ≠ HaltInst) :
    ∃ tr, RunLoop (prog.length + 1) prog 0 ResetSimulator = some tr ∧
      tr.length = prog.length := by
  have h0 : (0 : Int) = 4 * ((0 : Nat) : Int) := by norm_num
  rw [h0]
  exact addi_run prog hp prog.length 0 ResetSimulator (by omega) (by decide)
    (by decide)

/-- Witness for C8 with the one-instruction program `[addi x1, x0, 7]`. -/
theorem C8_addi_termination_witness :
    ∃ tr, RunLoop ([wAddi7].length + 1) [wAddi7] 0 ResetSimulator = some tr ∧
      tr.length = [wAddi7].length :=
  C8_addi_termination [wAddi7] (by decide) (by decide)
